import Mathlib

/-!
# Verification of the `versol` dependency resolver core

A shallow embedding, in Lean 4, of the parts of the `versol` PubGrub-style
version solver that the specification's claims are about:

* `term.py` — the signed-term algebra over an abstract requirement type.
  The requirement type is instantiated with the reference implementation
  bundled with the test suite (`solve_test.py`'s `dep`: a package name plus a
  finite set of version numbers).  Package names are modelled as naturals
  (they only need to be an ordered, decidable-equality key type).
* `incompatibility.py` — incompatibility construction and term
  simplification (sort by key, group, fold by intersection).
* `iset.py` — the half-open interval set over naturals with the identity
  key function, including the binary partition-point search, the splice
  based `__union_add`/`__remove`, and the shallow-copy behaviour of
  `difference`.
* `solve.py` — `_Solver.check_conflict`, with the partial solution's
  `relation_to` abstracted as a function argument (the partial-solution
  module itself is not needed for that claim: `check_conflict` only calls
  it as a black box).
* `report.py` / `util.py` — clause extraction, the derivation-report
  traversal, and the `lazygen` restartable-iterable wrapper.

Python `assert` failures and raised exceptions are modelled with `Option`:
`none` is an aborted computation.  Vacuous runtime checks (such as
`assert isect is not None` on a value that is never `None`) are embedded
as vacuous, exactly as in the source.
-/

/-! ## The reference requirement type (`solve_test.py`, class `dep`) -/

/-- `solve_test.dep`: a requirement, i.e. a package name together with a
finite set of acceptable versions.  Names are modelled as naturals. -/
structure dep where
  name : ℕ
  versions : Finset ℕ
deriving DecidableEq

/-- `dep.key`: the grouping key of a requirement is its name. -/
def dep.key (d : dep) : ℕ := d.name

/-- `dep.implied_by`: `self.name == o.name and self.versions.issuperset(o.versions)`. -/
def dep.implied_by (s o : dep) : Bool := s.name = o.name ∧ o.versions ⊆ s.versions

/-- `dep.intersection`: same name, version-set intersection. -/
def dep.intersection (s o : dep) : dep := ⟨s.name, s.versions ∩ o.versions⟩

/-- `dep.union`: same name, version-set union. -/
def dep.union (s o : dep) : dep := ⟨s.name, s.versions ∪ o.versions⟩

/-- `dep.difference`: same name, version-set difference. -/
def dep.difference (s o : dep) : dep := ⟨s.name, s.versions \ o.versions⟩

/-- `dep.intrinsically_unsatisfiable`: no acceptable versions at all. -/
def dep.intrinsically_unsatisfiable (s : dep) : Bool := s.versions = ∅

/-- `interfaces.excludes`: two requirements are mutually exclusive when their
intersection is intrinsically unsatisfiable. -/
def interfaces.excludes (a b : dep) : Bool := (a.intersection b).intrinsically_unsatisfiable

/-! ## Terms (`term.py`) -/

/-- `term.Term`: a requirement with a sign.  A positive term is satisfied by
versions in the requirement, a negative term by versions outside it. -/
structure Term where
  requirement : dep
  positive : Bool
deriving DecidableEq

/-- `Term.key` forwards to the requirement's key. -/
def Term.key (t : Term) : ℕ := t.requirement.key

/-- `Term.inverse` flips the sign. -/
def Term.inverse (t : Term) : Term := ⟨t.requirement, !t.positive⟩

/-- `Term.intersection`, by the four sign cases of the source.  The
negative/negative branch embeds `assert False` (taken when the requirement
union is intrinsically unsatisfiable) as `none`.  The source handles the
negative/positive case by swapping the operands and re-dispatching, which
lands in the positive/negative branch; that one recursion step is unfolded
here. -/
def Term.intersection (s o : Term) : Option Term :=
  match s.positive, o.positive with
  | true, true => some ⟨s.requirement.intersection o.requirement, true⟩
  | false, false =>
    let un := s.requirement.union o.requirement
    if un.intrinsically_unsatisfiable then none
    else some ⟨un, false⟩
  | false, true => some ⟨o.requirement.difference s.requirement, true⟩
  | true, false => some ⟨s.requirement.difference o.requirement, true⟩

/-- `Term.intrinsically_unsatisfiable`: only a positive term over an empty
requirement is unsatisfiable. -/
def Term.intrinsically_unsatisfiable (t : Term) : Bool :=
  if t.requirement.intrinsically_unsatisfiable then t.positive else false

/-- `Term.implied_by`, mirroring the source's control flow: the first
`return` fires on differing keys, the second on positive/positive, the
third (`excludes`) when `other` is positive and `self` is not, and the
final line — reached when `other` is negative, whatever `self`'s sign —
returns `other.requirement.implied_by(self.requirement)`. -/
def Term.implied_by (s o : Term) : Bool :=
  if s.key ≠ o.key then false
  else if s.positive && o.positive then s.requirement.implied_by o.requirement
  else if o.positive then interfaces.excludes s.requirement o.requirement
  else o.requirement.implied_by s.requirement

/-- `Term.implies(other) = other.implied_by(self)`. -/
def Term.implies (s o : Term) : Bool := o.implied_by s

/-- `Term.excludes`, by the source's case analysis. The positive/negative
case swaps the operands; that recursion step is unfolded here (the swapped
call lands in the negative/positive branch). -/
def Term.excludes (s o : Term) : Bool :=
  if s.key ≠ o.key then false
  else if s.positive then
    if o.positive then interfaces.excludes s.requirement o.requirement
    else o.requirement.implied_by s.requirement
  else if o.positive then s.requirement.implied_by o.requirement
  else false

/-- `term.SetRelation`. -/
inductive SetRelation where
  | Disjoint
  | Overlap
  | Subset
deriving DecidableEq

/-- `Term.relation_to`: Subset if implies, Disjoint if excludes, else Overlap. -/
def Term.relation_to (s o : Term) : SetRelation :=
  if s.implies o then .Subset
  else if s.excludes o then .Disjoint
  else .Overlap

example : Term.implied_by ⟨⟨0, {1}⟩, true⟩ ⟨⟨0, {1, 2}⟩, true⟩ = false := by decide
example : Term.implied_by ⟨⟨0, {1, 2}⟩, true⟩ ⟨⟨0, {1}⟩, true⟩ = true := by decide
example : Term.implied_by ⟨⟨0, {1}⟩, false⟩ ⟨⟨0, {2}⟩, true⟩ = true := by decide
example : Term.intersection ⟨⟨0, ∅⟩, false⟩ ⟨⟨0, ∅⟩, false⟩ = none := by decide

/-! ## Incompatibilities (`incompatibility.py`) -/

/-- The three non-derived cause tags (`RootCause`, `UnavailableCause`,
`DependencyCause`). -/
inductive BaseCause where
  | RootCause
  | UnavailableCause
  | DependencyCause
deriving DecidableEq

/-- `incompatibility.Incompatibility`: a tuple of simplified terms plus a
cause.  The source's `cause` field is a tagged union whose `ConflictCause`
variant holds two prior incompatibilities; here that union is flattened
into the two constructors `base` (the three leaf causes) and `derived`
(a `ConflictCause` with its `left` and `right` parents). -/
inductive Incompatibility where
  | base (terms : List Term) (cause : BaseCause)
  | derived (terms : List Term) (left right : Incompatibility)
deriving DecidableEq

/-- The stored `terms` tuple of an incompatibility. -/
def Incompatibility.terms : Incompatibility → List Term
  | .base ts _ => ts
  | .derived ts _ _ => ts

/-- `Incompatibility.is_derived`: caused by a conflict resolution. -/
def Incompatibility.is_derived : Incompatibility → Bool
  | .base _ _ => false
  | .derived _ _ _ => true

/-- The `cause` argument accepted by the `Incompatibility` constructor
(the source's `Cause` type alias). -/
inductive Cause where
  | RootCause
  | UnavailableCause
  | DependencyCause
  | ConflictCause (left right : Incompatibility)
deriving DecidableEq

/-- `incompatibility._not_null_intersection`: return the intersection of
two terms.  The Python body also runs `assert isect is not None`, but
`Term.intersection` never returns Python `None` (its only abort is the
`assert False` inside the negative/negative branch), so the check can
never fire and adds no failure case here. -/
def incompatibility.not_null_intersection (a b : Term) : Option Term :=
  a.intersection b

/-- The key-ordering used by `_simplify`'s `terms.sort(key=...)`. -/
def keyLe (a b : Term) : Prop := a.key ≤ b.key

instance : DecidableRel keyLe := fun a b => inferInstanceAs (Decidable (a.key ≤ b.key))

instance : IsTotal Term keyLe := ⟨fun a b => Nat.le_total a.key b.key⟩

instance : IsTrans Term keyLe := ⟨fun _ _ _ h h2 => Nat.le_trans h h2⟩

/-- The `terms.sort(key=lambda k: k.key)` step.  Python's `list.sort` is a
stable ascending sort; a stable sort's output is determined by the
ordering, so insertion sort is an exact model of it. -/
def incompatibility.sortTerms (ts : List Term) : List Term :=
  List.insertionSort keyLe ts

/-- The `groupby` + `reduce` step of `_simplify` on the sorted list:
`acc` is the running fold of the current equal-key run; a term with the
same key is folded in by `_not_null_intersection`, a term with a new key
emits `acc` and starts the next run. -/
def incompatibility.simplifyAux (acc : Term) : List Term → Option (List Term)
  | [] => some [acc]
  | t :: ts =>
    if t.key = acc.key then
      match incompatibility.not_null_intersection acc t with
      | none => none
      | some acc2 => incompatibility.simplifyAux acc2 ts
    else
      match incompatibility.simplifyAux t ts with
      | none => none
      | some rest => some (acc :: rest)

/-- `incompatibility._simplify`: sort the terms by key, group runs of
equal keys, and fold each run by term intersection. -/
def incompatibility.simplify (ts : List Term) : Option (List Term) :=
  match incompatibility.sortTerms ts with
  | [] => some []
  | t :: rest => incompatibility.simplifyAux t rest

/-- Pair the constructor's `cause` argument with the stored terms,
picking the matching `Incompatibility` constructor. -/
def Cause.store (c : Cause) (ts2 : List Term) : Incompatibility :=
  match c with
  | .RootCause => .base ts2 .RootCause
  | .UnavailableCause => .base ts2 .UnavailableCause
  | .DependencyCause => .base ts2 .DependencyCause
  | .ConflictCause l r => .derived ts2 l r

/-- `Incompatibility.__init__`: store the simplified terms together with
the given cause.  `none` when a runtime assertion fires during
simplification. -/
def Incompatibility.new (ts : List Term) (cause : Cause) : Option Incompatibility :=
  (incompatibility.simplify ts).map cause.store

example :
    Incompatibility.new [⟨⟨2, {1}⟩, true⟩, ⟨⟨1, {4}⟩, false⟩, ⟨⟨2, {1, 2}⟩, true⟩] .RootCause =
      some (.base [⟨⟨1, {4}⟩, false⟩, ⟨⟨2, {1}⟩, true⟩] .RootCause) := by decide

/-! ## The conflict check (`solve.py`) -/

/-- `solve.ConflictResult`: the three-way answer of `check_conflict`
(`_AlmostConflict` carries the unique overlapping term). -/
inductive ConflictResult where
  | NoConflict
  | Conflict
  | AlmostConflict (term : Term)
deriving DecidableEq

/-- The `for term in ic.terms` loop of `_Solver.check_conflict`: `unsat`
is the `unsat_term` accumulator (the first Overlap term seen so far). -/
def check_conflict_loop (rel : Term → SetRelation) :
    List Term → Option Term → ConflictResult
  | [], none => .Conflict
  | [], some t => .AlmostConflict t
  | t :: ts, unsat =>
    match rel t with
    | .Disjoint => .NoConflict
    | .Overlap =>
      match unsat with
      | some _ => .NoConflict
      | none => check_conflict_loop rel ts (some t)
    | .Subset => check_conflict_loop rel ts unsat

/-- `_Solver.check_conflict`, with the partial solution abstracted as the
function `rel` that `self.__sln.relation_to` computes for each term. -/
def check_conflict (rel : Term → SetRelation) (ic : Incompatibility) : ConflictResult :=
  check_conflict_loop rel ic.terms none

/-! ## Half-open interval sets (`iset.py`)

Points are naturals compared with the default (identity) key function. -/

/-- `iset._partition_point`: binary search for the index of the first
element failing `pred`, assuming `xs` is partitioned by `pred`.  The
source recurses on Python slices `xs[mid:]` and `xs[:mid]`; `getD` stands
in for the (always in-bounds) subscript `xs[mid]`. -/
def partition_point (pred : ℕ → Bool) (xs : List ℕ) : ℕ :=
  if xs.length = 1 then
    if pred (xs.getD 0 0) then 1 else 0
  else
    let mid := xs.length / 2
    if _h : mid = xs.length then mid
    else if pred (xs.getD mid 0) then
      mid + partition_point pred (xs.drop mid)
    else
      partition_point pred (xs.take mid)
termination_by xs.length
decreasing_by
  · simp only [List.length_drop]
    omega
  · simp only [List.length_take]
    omega

/-- `HalfOpenIntervalSet`: the boundary-point list (`self.__points`). -/
structure HalfOpenIntervalSet where
  points : List ℕ
deriving DecidableEq

/-- `__n_points_before`: number of stored points less than `p`. -/
def n_points_before (points : List ℕ) (p : ℕ) : ℕ :=
  partition_point (fun mine => decide (mine < p)) points

/-- `__n_points_before_or_at`: number of stored points not greater than `p`
(the predicate is `not (key p < key mine)`). -/
def n_points_before_or_at (points : List ℕ) (p : ℕ) : ℕ :=
  partition_point (fun mine => !decide (p < mine)) points

/-- `HalfOpenIntervalSet.contains`. -/
def HalfOpenIntervalSet.contains (s : HalfOpenIntervalSet) (p : ℕ) : Bool :=
  n_points_before_or_at s.points p % 2 == 1

/-- Python slice assignment `xs[i:j] = repl`: with `0 ≤ i ≤ len` and any
`j`, the replaced segment is `xs[i : max i j]` (an empty slice located at
`i` when `j < i`). -/
def splice (xs : List ℕ) (i j : ℕ) (repl : List ℕ) : List ℕ :=
  xs.take i ++ repl ++ xs.drop (max i j)

/-- `__union_add`: insert one interval, splicing the point list according
to the parities of the boundary positions.  `none` models the
`InvalidIntervalError` raised when `hi < lo`. -/
def union_add (points : List ℕ) (iv : ℕ × ℕ) : Option (List ℕ) :=
  let lo := iv.1
  let hi := iv.2
  if hi < lo then none
  else
    let left := n_points_before_or_at points lo
    let starts_within := left % 2 == 1
    let right := n_points_before points hi
    let ends_within := right % 2 == 1
    if starts_within then
      if ends_within then some (splice points left right [])
      else some (splice points left right [hi])
    else if ends_within then some (splice points left right [lo])
    else some (splice points left right [lo, hi])

/-- `HalfOpenIntervalSet.__init__`: start from the empty point list and
`__union_add` each given interval in order. -/
def fromIntervals (ivs : List (ℕ × ℕ)) : Option HalfOpenIntervalSet :=
  (ivs.foldlM union_add []).map HalfOpenIntervalSet.mk

/-- `HalfOpenIntervalSet.intervals`: every other adjacent pair of the point
list (`pairwise` + `compress` with an alternating mask). -/
def intervalsOf : List ℕ → List (ℕ × ℕ)
  | [] => []
  | [_] => []
  | a :: b :: rest => (a, b) :: intervalsOf rest

/-- `HalfOpenIntervalSet.union`: chain both operands' intervals and defer
to the constructor. -/
def HalfOpenIntervalSet.union (s t : HalfOpenIntervalSet) : Option HalfOpenIntervalSet :=
  fromIntervals (intervalsOf s.points ++ intervalsOf t.points)

/-- `__remove`: delete one interval's points, the parity-mirrored dual of
`union_add` (no validity check here). -/
def remove (points : List ℕ) (iv : ℕ × ℕ) : List ℕ :=
  let low := iv.1
  let high := iv.2
  let left := n_points_before_or_at points low
  let right := n_points_before points high
  if left % 2 == 1 then
    if right % 2 == 1 then splice points left right [low, high]
    else splice points left right [low]
  else if right % 2 == 1 then splice points left right [high]
  else splice points left right []

/-- `HalfOpenIntervalSet.difference`, including its aliasing: the method
runs `dup = copy.copy(self)` and then mutates `dup.__points` in place.
`HalfOpenIntervalSet` defines `__slots__` and no `__copy__`, so
`copy.copy` is a shallow copy whose `__points` slot is the *same* list
object as `self.__points`; every in-place splice therefore also rewrites
`self`.  The result is the pair (returned set, `self` after the call),
which share one final point list. -/
def HalfOpenIntervalSet.difference (s t : HalfOpenIntervalSet) :
    HalfOpenIntervalSet × HalfOpenIntervalSet :=
  let final := (intervalsOf t.points).foldl remove s.points
  (⟨final⟩, ⟨final⟩)

/-! Shape equations for `partition_point` on short lists, used to evaluate
the interval-set operations on concrete inputs. -/

lemma partition_point_nil (pred : ℕ → Bool) : partition_point pred [] = 0 := by
  rw [partition_point]
  simp

lemma partition_point_one (pred : ℕ → Bool) (a : ℕ) :
    partition_point pred [a] = if pred a then 1 else 0 := by
  rw [partition_point]
  simp

lemma partition_point_two (pred : ℕ → Bool) (a b : ℕ) :
    partition_point pred [a, b] = if pred b then 2 else if pred a then 1 else 0 := by
  rw [partition_point]
  simp [partition_point_one]
  split_ifs <;> simp_all

lemma partition_point_three (pred : ℕ → Bool) (a b c : ℕ) :
    partition_point pred [a, b, c] =
      if pred b then (if pred c then 3 else 2) else if pred a then 1 else 0 := by
  rw [partition_point]
  simp [partition_point_two, partition_point_one]
  split_ifs <;> simp_all

lemma partition_point_four (pred : ℕ → Bool) (a b c d : ℕ) :
    partition_point pred [a, b, c, d] =
      if pred c then (if pred d then 4 else 3)
      else if pred b then 2 else if pred a then 1 else 0 := by
  rw [partition_point]
  simp [partition_point_two]
  split_ifs <;> simp_all

/-! ## The derivation report (`report.py`, `util.py`) -/

/-- `report.Clause`: the renderable clauses, together with `NoSolution`
(kept in the same type because `clause_from_incompatibility` may return
either). -/
inductive Clause where
  | Dependency (dependent dependens_on : dep)
  | Conflict (a b : dep)
  | Disallowed (requirement : dep)
  | Unavailable (requirement : dep)
  | Needed (requirement : dep)
  | Compromise (left right result : dep)
  | NoSolution
deriving DecidableEq

/-- `util.minmax`, at the one instantiation the report uses: two terms
compared through a Bool-valued key (Python's `False < True` matches the
Bool order used here).  Ties keep `(left, right)`. -/
def util.minmax (left right : Term) (key : Term → Bool) : Term × Term :=
  if key left < key right then (left, right)
  else if key right < key left then (right, left)
  else (left, right)

/-- `isinstance(ic.cause, UnavailableCause)`. -/
def Incompatibility.cause_is_unavailable : Incompatibility → Bool
  | .base _ .UnavailableCause => true
  | _ => false

/-- `report.clause_from_incompatibility`, dispatching on the stored term
tuple exactly as the source: two terms, then one, then three, then zero;
`none` embeds each `assert False` arm (two negatives, a three-term tuple
that is not positive/positive/negative, four or more terms). -/
def clause_from_incompatibility (ic : Incompatibility) : Option Clause :=
  match ic.terms with
  | [t1, t2] =>
    if t1.positive != t2.positive then
      let mm := util.minmax t1 t2 (fun t => t.positive)
      some (.Dependency mm.2.requirement mm.1.requirement)
    else if t1.positive then
      some (.Conflict t1.requirement t2.requirement)
    else none
  | [term] =>
    if term.positive then
      if ic.cause_is_unavailable then some (.Unavailable term.requirement)
      else some (.Disallowed term.requirement)
    else some (.Needed term.requirement)
  | [a, b, c] =>
    if a.positive && b.positive && !c.positive then
      some (.Compromise a.requirement b.requirement c.requirement)
    else none
  | [] => some .NoSolution
  | _ => none

/-- `report.ExplainationPart`: one item of the report stream. -/
inductive ExplainationPart where
  | Premise (premise : Clause)
  | Conclusion (conclusion : Clause)
  | Separator
deriving DecidableEq

/-- `report._gen_conclusion`. -/
def gen_conclusion (ic : Incompatibility) : Option ExplainationPart :=
  (clause_from_incompatibility ic).map .Conclusion

/-- `report._gen_premise`, with `assert not isinstance(clz, NoSolution)`
embedded as a failure case. -/
def gen_premise (ic : Incompatibility) : Option ExplainationPart :=
  match clause_from_incompatibility ic with
  | none => none
  | some .NoSolution => none
  | some c => some (.Premise c)

mutual

/-- `report._generate_for_derived`: the top-down traversal of the
incompatibility DAG.  The source asserts the cause is a `ConflictCause`
and then dispatches on `a.is_derived` / `b.is_derived`; `is_derived` is
exactly "the cause is a `ConflictCause`", so the dispatch is rendered as
a structural match on the two children.  A generator run that trips an
assertion is `none`. -/
def generate_for_derived : Incompatibility → Option (List ExplainationPart)
  | .base _ _ => none
  | .derived ts (.derived la al ar) (.derived lb bl br) =>
    gen_complex (.derived ts (.derived la al ar) (.derived lb bl br))
      (.derived la al ar) (.derived lb bl br)
  | .derived ts (.derived la al ar) (.base tb cb) =>
    gen_partial (.derived ts (.derived la al ar) (.base tb cb))
      (.derived la al ar) (.base tb cb)
  | .derived ts (.base ta ca) (.derived lb bl br) =>
    gen_partial (.derived ts (.base ta ca) (.derived lb bl br))
      (.derived lb bl br) (.base ta ca)
  | .derived ts (.base ta ca) (.base tb cb) =>
    match gen_premise (.base ta ca), gen_premise (.base tb cb),
        gen_conclusion (.derived ts (.base ta ca) (.base tb cb)) with
    | some p1, some p2, some cz => some [p1, p2, cz]
    | _, _, _ => none
termination_by ic => sizeOf ic

/-- `report._gen_partial`: one child (`drv`) is derived, the other
(`ext`) external.  The branch conditions are transcribed as written in
the source (note that the second one tests that *both* grandchildren are
derived).  The `base` arm embeds the `assert isinstance(derived.cause,
ConflictCause)` guard. -/
def gen_partial (ic drv ext : Incompatibility) : Option (List ExplainationPart) :=
  match drv with
  | .base _ _ => none
  | .derived dts dl dr =>
    if dl.is_derived && !dr.is_derived then
      match generate_for_derived dl, gen_premise dr, gen_premise ext, gen_conclusion ic with
      | some first, some p1, some p2, some cz => some (first ++ [p1, p2, cz])
      | _, _, _, _ => none
    else if dr.is_derived && dl.is_derived then
      match generate_for_derived dr, gen_premise dl, gen_premise ext, gen_conclusion ic with
      | some first, some p1, some p2, some cz => some (first ++ [p1, p2, cz])
      | _, _, _, _ => none
    else
      match generate_for_derived (.derived dts dl dr), gen_premise ext, gen_conclusion ic with
      | some first, some p1, some cz => some (first ++ [p1, cz])
      | _, _, _ => none
termination_by sizeOf drv + 1

/-- `report._gen_complex`: both children are derived (the `_ , _` arm is
unreachable from `generate_for_derived` and embeds the source's
assertion on entry). -/
def gen_complex (ic left right : Incompatibility) : Option (List ExplainationPart) :=
  match left, right with
  | .derived lts ll lr, .derived rts rl rr =>
    if !ll.is_derived && !lr.is_derived then
      match generate_for_derived (.derived rts rl rr),
          generate_for_derived (.derived lts ll lr), gen_conclusion ic with
      | some g1, some g2, some cz => some (g1 ++ g2 ++ [cz])
      | _, _, _ => none
    else if !rl.is_derived && !rr.is_derived then
      match generate_for_derived (.derived lts ll lr),
          generate_for_derived (.derived rts rl rr), gen_conclusion ic with
      | some g1, some g2, some cz => some (g1 ++ g2 ++ [cz])
      | _, _, _ => none
    else
      match generate_for_derived (.derived lts ll lr),
          generate_for_derived (.derived rts rl rr),
          gen_premise (.derived lts ll lr), gen_conclusion ic with
      | some g1, some g2, some pl, some cz =>
        some (g1 ++ [.Separator] ++ g2 ++ [.Separator, pl, cz])
      | _, _, _, _ => none
  | _, _ => none
termination_by sizeOf left + sizeOf right

end

/-- `util._LazyGen`: the object a `@lazygen`-decorated function returns.
It stores the wrapped generator function together with its arguments;
every call to `__iter__` re-invokes the function, producing a fresh
generator that starts from the beginning.  The stored closure maps the
(captured) arguments to the outcome of running one such generator to
completion — `none` when the run is aborted by an assertion. -/
structure LazyGen (α : Type) where
  fn : Unit → Option (List α)

/-- One complete iteration of the iterable: `__iter__` calls the stored
function afresh; the object itself holds no iteration state, so it is
returned unchanged for the next pass. -/
def LazyGen.iterate (g : LazyGen α) : Option (List α) × LazyGen α :=
  (g.fn (), g)

/-- `report.generate_report`: `@lazygen`-wrapped `_generate_for_derived`;
calling it only captures the argument, and each iteration runs a fresh
traversal. -/
def generate_report (ic : Incompatibility) : LazyGen ExplainationPart :=
  ⟨fun _ => generate_for_derived ic⟩

/-! ## Claim C1 — `Term.implied_by`'s case analysis -/

/-- C1 (counterexample): the spec's case table for `Term.implied_by` fails
on the code.  For `-self, +other` the spec says the result is always
false, but on `self = ¬{1}`, `other = +{2}` (same key) the code returns
true (it computes requirement disjointness there).  For `+self, -other`
the spec says the result is requirement disjointness, but on
`self = +{1}`, `other = ¬{1,2}` the code returns true even though the two
requirements are not disjoint. -/
theorem implied_by_spec_table_cex :
    Term.implied_by ⟨⟨0, {1}⟩, false⟩ ⟨⟨0, {2}⟩, true⟩ = true ∧
    Term.implied_by ⟨⟨0, {1}⟩, true⟩ ⟨⟨0, {1, 2}⟩, false⟩ = true ∧
    interfaces.excludes ⟨0, {1}⟩ ⟨0, {1, 2}⟩ = false := by decide

/-- The amended case table for `Term.implied_by`, written from the
amended claim: different keys give false; `+self, +other` gives
`self.req.implied_by(other.req)`; `+self, -other` gives
`other.req.implied_by(self.req)` (the same contrapositive line as the
negative/negative case); `-self, -other` gives
`other.req.implied_by(self.req)`; `-self, +other` is true iff the two
requirements are disjoint. -/
def Term.implied_by_amended_table (s o : Term) : Bool :=
  if s.key ≠ o.key then false
  else
    match s.positive, o.positive with
    | true, true => s.requirement.implied_by o.requirement
    | true, false => o.requirement.implied_by s.requirement
    | false, false => o.requirement.implied_by s.requirement
    | false, true => interfaces.excludes s.requirement o.requirement

/-- C1 (amended): `Term.implied_by` follows the amended case table for
every pair of terms. -/
theorem implied_by_follows_amended_table (s o : Term) :
    Term.implied_by s o = Term.implied_by_amended_table s o := by
  obtain ⟨sr, sp⟩ := s
  obtain ⟨og, op⟩ := o
  cases sp <;> cases op <;>
    simp [Term.implied_by, Term.implied_by_amended_table]

/-! ## Claim C6 — the negative/negative intersection assertion -/

/-- C6 (counterexample): take `A = B = ` the requirement with key 0 and
no versions.  Their union is empty — certainly not the full universe
(it does not contain version 0) — so the claim says the intersection of
`¬A` and `¬B` is the negative term over the union; but the code's
negative/negative assertion fires (the branch aborts), because the code
tests `union.intrinsically_unsatisfiable`, not "union is the full
universe". -/
theorem intersection_neg_neg_cex :
    Term.intersection ⟨⟨0, ∅⟩, false⟩ ⟨⟨0, ∅⟩, false⟩ = none ∧
    0 ∉ (dep.union ⟨0, ∅⟩ ⟨0, ∅⟩).versions := by decide

/-- C6 (amended): for negative terms `¬A`, `¬B`, the intersection is the
negative term over `A ∪ B` whenever that union is not intrinsically
unsatisfiable (non-empty), and the branch's assertion fires exactly when
`A ∪ B` is intrinsically unsatisfiable (which for these requirements
means both version sets are empty) — not when it is the full universe. -/
theorem intersection_neg_neg_amended (a b : dep) :
    Term.intersection ⟨a, false⟩ ⟨b, false⟩ =
      if (a.union b).intrinsically_unsatisfiable then none
      else some ⟨a.union b, false⟩ := rfl

/-! ## Claim C5 — the "non-empty intersection" assertion is vacuous -/

/-- C5 (code_bug evaluation): constructing an incompatibility from the
same-key positive terms `+{1}` and `+{2}`, whose intersection is the
empty requirement, does *not* fail any assertion: `Term.intersection`
always returns a term object, so `_not_null_intersection`'s
`assert isect is not None` cannot fire, and the constructor succeeds,
storing a single intrinsically-unsatisfiable (empty) positive term. -/
theorem simplify_keeps_empty_intersection :
    Incompatibility.new [⟨⟨0, {1}⟩, true⟩, ⟨⟨0, {2}⟩, true⟩] .DependencyCause =
      some (.base [⟨⟨0, ∅⟩, true⟩] .DependencyCause) ∧
    Term.intrinsically_unsatisfiable ⟨⟨0, ∅⟩, true⟩ = true := by decide

/-! ## Claim C3 — `difference` mutates its left operand -/

/-- C3 (code_bug evaluation): with `s` built from `[(1, 10))` and `t`
from `[(5, 15))`, running `s.difference(t)` rewrites the shared points
list to `[1, 5]`: the returned set and the post-call `s` are both
`[1, 5)`, and the post-call `s` no longer equals its pre-call value
`[1, 10)`.  (`copy.copy` on a `__slots__` class with no `__copy__` is a
shallow copy, so `dup.__points` *is* `s.__points` and the in-place
splices hit both.) -/
theorem difference_mutates_operand :
    fromIntervals [(1, 10)] = some ⟨[1, 10]⟩ ∧
    fromIntervals [(5, 15)] = some ⟨[5, 15]⟩ ∧
    HalfOpenIntervalSet.difference ⟨[1, 10]⟩ ⟨[5, 15]⟩ = (⟨[1, 5]⟩, ⟨[1, 5]⟩) ∧
    (⟨[1, 5]⟩ : HalfOpenIntervalSet) ≠ ⟨[1, 10]⟩ := by
  refine ⟨?_, ?_, ?_, by decide⟩ <;>
    simp [fromIntervals, union_add, HalfOpenIntervalSet.difference, intervalsOf, remove,
      n_points_before_or_at, n_points_before, partition_point_nil, partition_point_one,
      partition_point_two, splice]

/-! ## Claim C7 — `union` can lose points of an operand -/

/-- C7 (code_bug evaluation): let `s` be the set built from the single
degenerate interval `[(2, 2))` (the constructor accepts `lo == hi` and
stores points `[2, 2]`) and `t` the set built from `[(2, 4))`.  Then
`t.union(s)` splices the degenerate interval into `[2, 4]` at positions
`left = 1 > right = 0`, producing the odd-length point list `[2, 2, 4]`
— breaking the class's even-length invariant — and the resulting set
does not contain 3 although `t` does, refuting
`(t ∪ s).contains(p) ⟺ t.contains(p) ∨ s.contains(p)` at `p = 3`. -/
theorem union_loses_operand_points :
    fromIntervals [(2, 2)] = some ⟨[2, 2]⟩ ∧
    fromIntervals [(2, 4)] = some ⟨[2, 4]⟩ ∧
    HalfOpenIntervalSet.union ⟨[2, 4]⟩ ⟨[2, 2]⟩ = some ⟨[2, 2, 4]⟩ ∧
    HalfOpenIntervalSet.contains ⟨[2, 2, 4]⟩ 3 = false ∧
    HalfOpenIntervalSet.contains ⟨[2, 4]⟩ 3 = true ∧
    HalfOpenIntervalSet.contains ⟨[2, 2]⟩ 3 = false := by
  refine ⟨?_, ?_, ?_, ?_, ?_, ?_⟩ <;>
    simp [fromIntervals, union_add, HalfOpenIntervalSet.union, intervalsOf,
      HalfOpenIntervalSet.contains, n_points_before_or_at, n_points_before,
      partition_point_nil, partition_point_one, partition_point_two,
      partition_point_three, partition_point_four, splice]

/-! ## Claim C2 — `check_conflict`'s case analysis -/

lemma check_conflict_loop_noConflict (rel : Term → SetRelation) :
    ∀ (ts : List Term) (unsat : Option Term),
      ((∃ t ∈ ts, rel t = .Disjoint) ∨
        2 ≤ ts.countP (fun t => rel t == .Overlap) + unsat.elim 0 (fun _ => 1)) →
      check_conflict_loop rel ts unsat = .NoConflict := by
  intro ts
  induction ts with
  | nil =>
    intro unsat h
    rcases h with ⟨t, ht, _⟩ | h2
    · exact absurd ht (List.not_mem_nil t)
    · rw [List.countP_nil] at h2
      cases unsat <;> simp [Option.elim] at h2
  | cons t ts ih =>
    intro unsat h
    cases hr : rel t with
    | Disjoint => simp [check_conflict_loop, hr]
    | Overlap =>
      have hc : List.countP (fun w => rel w == SetRelation.Overlap) (t :: ts) =
          List.countP (fun w => rel w == SetRelation.Overlap) ts + 1 := by
        rw [List.countP_cons]
        simp [hr]
      cases unsat with
      | some u => simp [check_conflict_loop, hr]
      | none =>
        simp only [check_conflict_loop, hr]
        apply ih
        rcases h with ⟨w, hw, hwd⟩ | h2
        · rcases List.mem_cons.mp hw with rfl | hw2
          · rw [hr] at hwd
            exact absurd hwd (by simp)
          · exact Or.inl ⟨w, hw2, hwd⟩
        · right
          rw [hc] at h2
          simp [Option.elim] at h2 ⊢
          exact h2
    | Subset =>
      have hc : List.countP (fun w => rel w == SetRelation.Overlap) (t :: ts) =
          List.countP (fun w => rel w == SetRelation.Overlap) ts := by
        rw [List.countP_cons]
        simp [hr]
      simp only [check_conflict_loop, hr]
      apply ih
      rcases h with ⟨w, hw, hwd⟩ | h2
      · rcases List.mem_cons.mp hw with rfl | hw2
        · rw [hr] at hwd
          exact absurd hwd (by simp)
        · exact Or.inl ⟨w, hw2, hwd⟩
      · right
        rw [hc] at h2
        exact h2

lemma check_conflict_loop_allSubset (rel : Term → SetRelation) :
    ∀ (ts : List Term) (unsat : Option Term),
      (∀ t ∈ ts, rel t = .Subset) →
      check_conflict_loop rel ts unsat =
        (match unsat with
         | none => .Conflict
         | some u => .AlmostConflict u) := by
  intro ts
  induction ts with
  | nil => intro unsat _; cases unsat <;> rfl
  | cons t ts ih =>
    intro unsat h
    have ht : rel t = .Subset := h t (List.mem_cons_self t ts)
    simp only [check_conflict_loop, ht]
    exact ih unsat fun u hu => h u (List.mem_cons_of_mem t hu)

lemma check_conflict_loop_almost (rel : Term → SetRelation) :
    ∀ (ts : List Term) (u : Term), ts.Nodup → u ∈ ts → rel u = .Overlap →
      (∀ t ∈ ts, t ≠ u → rel t = .Subset) →
      check_conflict_loop rel ts none = .AlmostConflict u := by
  intro ts
  induction ts with
  | nil => intro u _ hu; exact absurd hu (List.not_mem_nil u)
  | cons t ts ih =>
    intro u hnd hu hru hoth
    rcases List.mem_cons.mp hu with rfl | hu2
    · simp only [check_conflict_loop, hru]
      apply check_conflict_loop_allSubset
      intro w hw
      refine hoth w (List.mem_cons_of_mem u hw) ?_
      intro hwu
      subst hwu
      exact (List.nodup_cons.mp hnd).1 hw
    · have htu : t ≠ u := by
        intro hteq
        subst hteq
        exact (List.nodup_cons.mp hnd).1 hu2
      have hts : rel t = .Subset := hoth t (List.mem_cons_self t ts) htu
      simp only [check_conflict_loop, hts]
      exact ih u (List.nodup_cons.mp hnd).2 hu2 hru
        fun w hw hwne => hoth w (List.mem_cons_of_mem t hw) hwne

/-- C2: `check_conflict` returns `NoConflict` when some term's relation to
the partial solution is Disjoint or more than one term's relation is
Overlap; `AlmostConflict t` when exactly one term `t` is Overlap and every
other term is Subset; and `Conflict` when every term is Subset (vacuously
including a termless incompatibility).  The partial solution enters only
through `rel`, the relation `__sln.relation_to` assigns each term. -/
theorem check_conflict_cases (rel : Term → SetRelation) (ic : Incompatibility)
    (hnd : ic.terms.Nodup) :
    (((∃ t ∈ ic.terms, rel t = .Disjoint) ∨
        1 < ic.terms.countP (fun t => rel t == .Overlap)) →
      check_conflict rel ic = .NoConflict) ∧
    (∀ u ∈ ic.terms, rel u = .Overlap →
      (∀ t ∈ ic.terms, t ≠ u → rel t = .Subset) →
      check_conflict rel ic = .AlmostConflict u) ∧
    ((∀ t ∈ ic.terms, rel t = .Subset) → check_conflict rel ic = .Conflict) := by
  refine ⟨?_, ?_, ?_⟩
  · intro h
    apply check_conflict_loop_noConflict
    rcases h with h | h
    · exact Or.inl h
    · right
      simp only [Option.elim]
      omega
  · intro u hu hru hoth
    exact check_conflict_loop_almost rel ic.terms u hnd hu hru hoth
  · intro h
    rw [check_conflict, check_conflict_loop_allSubset rel ic.terms none h]

/-- Inputs for the C2 witness: a two-term incompatibility and a relation
function marking the key-1 term Overlap and everything else Subset. -/
def check_conflict_rel_w : Term → SetRelation :=
  fun t => if t.key = 1 then .Overlap else .Subset

def check_conflict_ic_w : Incompatibility :=
  .base [⟨⟨1, {1}⟩, true⟩, ⟨⟨2, {1}⟩, false⟩] .DependencyCause

/-- C2 (witness): on the concrete incompatibility above the theorem's
unit case applies and `check_conflict` produces the almost-conflict. -/
theorem check_conflict_cases_witness :
    check_conflict check_conflict_rel_w check_conflict_ic_w =
      .AlmostConflict ⟨⟨1, {1}⟩, true⟩ := by
  have h := check_conflict_cases check_conflict_rel_w check_conflict_ic_w (by decide)
  exact h.2.1 ⟨⟨1, {1}⟩, true⟩ (by decide) (by decide) (by decide)

/-! ## Claim C8 — clause extraction from an incompatibility's term shape -/

/-- C8 (counterexample): a three-term incompatibility with two positive
terms and one negative term, but stored in the order negative, positive,
positive.  The claim says clause extraction gives `Compromise(a, b, c)`;
the code only accepts the order positive, positive, negative and hits
its `assert False` arm here instead. -/
theorem clause_three_term_order_cex :
    clause_from_incompatibility
      (.base [⟨⟨0, {1}⟩, false⟩, ⟨⟨1, {1}⟩, true⟩, ⟨⟨2, {1}⟩, true⟩] .DependencyCause) =
      none := by decide

/-- The amended clause table, written from the amended claim: the
three-term row applies only when the first two stored terms are positive
and the third negative; every other three-term shape is an internal
error.  The remaining rows are unchanged (the two-term mixed row is
spelled out by sign order instead of through `minmax`). -/
def clause_amended_table (ic : Incompatibility) : Option Clause :=
  match ic.terms with
  | [t] =>
    if t.positive then
      if ic.cause_is_unavailable then some (.Unavailable t.requirement)
      else some (.Disallowed t.requirement)
    else some (.Needed t.requirement)
  | [a, b] =>
    match a.positive, b.positive with
    | true, false => some (.Dependency a.requirement b.requirement)
    | false, true => some (.Dependency b.requirement a.requirement)
    | true, true => some (.Conflict a.requirement b.requirement)
    | false, false => none
  | [a, b, c] =>
    if a.positive && b.positive && !c.positive then
      some (.Compromise a.requirement b.requirement c.requirement)
    else none
  | [] => some .NoSolution
  | _ => none

/-- C8 (amended): `clause_from_incompatibility` agrees with the amended
table on every incompatibility. -/
theorem clause_from_incompatibility_amended (ic : Incompatibility) :
    clause_from_incompatibility ic = clause_amended_table ic := by
  unfold clause_from_incompatibility clause_amended_table
  cases hts : ic.terms with
  | nil => rfl
  | cons t1 rest =>
    cases rest with
    | nil => rfl
    | cons t2 rest2 =>
      cases rest2 with
      | nil =>
        cases h1 : t1.positive <;> cases h2 : t2.positive <;>
          simp [util.minmax, h1, h2, Bool.lt_iff]
      | cons t3 rest3 =>
        cases rest3 <;> rfl

/-! ## Claim C9 — the report is a restartable lazy sequence -/

/-- C9: for every derived incompatibility (one whose cause is a
`ConflictCause`, i.e. built by the `derived` constructor),
`generate_report` returns a `_LazyGen` object; each iteration invokes
the stored traversal afresh, so the first complete iteration yields
exactly the derivation traversal and a second complete iteration of the
same returned object yields the same sequence of Premise, Conclusion and
Separator items (or aborts at the same assertion). -/
theorem generate_report_restartable (ts : List Term) (a b : Incompatibility) :
    (generate_report (.derived ts a b)).iterate.1 =
        generate_for_derived (.derived ts a b) ∧
      ((generate_report (.derived ts a b)).iterate.2.iterate.1 =
        (generate_report (.derived ts a b)).iterate.1) :=
  ⟨rfl, rfl⟩

lemma partition_point_eq_countP (pred : ℕ → Bool) :
    ∀ (n : ℕ) (xs : List ℕ), xs.length ≤ n →
      xs.Pairwise (fun a b => pred b = true → pred a = true) →
      partition_point pred xs = xs.countP pred := by
  intro n
  induction n with
  | zero =>
    intro xs hlen hp
    have hx : xs = [] := List.length_eq_zero.mp (Nat.le_zero.mp hlen)
    subst hx
    rw [partition_point]
    simp
  | succ n ih =>
    intro xs hlen hp
    rw [partition_point]
    by_cases h1 : xs.length = 1
    · obtain ⟨a, ha⟩ := List.length_eq_one.mp h1
      subst ha
      by_cases hpa : pred a = true <;> simp [hpa, List.countP_cons]
    · rw [if_neg h1]
      by_cases h2 : xs.length / 2 = xs.length
      · have hx : xs = [] := by
          have : xs.length = 0 := by omega
          exact List.length_eq_zero.mp this
        subst hx
        simp
      · rw [dif_neg h2]
        have hmidlt : xs.length / 2 < xs.length := by omega
        have hmid1 : 1 ≤ xs.length / 2 := by omega
        have hget : xs.getD (xs.length / 2) 0 = xs[xs.length / 2] :=
          List.getD_eq_getElem xs 0 hmidlt
        have hsplit := List.take_append_drop (xs.length / 2) xs
        have hpsplit : List.Pairwise (fun a b => pred b = true → pred a = true)
            (xs.take (xs.length / 2) ++ xs.drop (xs.length / 2)) := by
          rw [hsplit]; exact hp
        rw [List.pairwise_append] at hpsplit
        obtain ⟨hptake, hpdrop, hcross⟩ := hpsplit
        have hdropcons : xs.drop (xs.length / 2) =
            xs[xs.length / 2] :: xs.drop (xs.length / 2 + 1) :=
          List.drop_eq_getElem_cons hmidlt
        by_cases h3 : pred (xs.getD (xs.length / 2) 0) = true
        · rw [if_pos h3]
          have hmem : xs[xs.length / 2] ∈ xs.drop (xs.length / 2) := by
            rw [hdropcons]; exact List.mem_cons_self _ _
          -- every element of the taken prefix satisfies pred
          have htake_all : ∀ a ∈ xs.take (xs.length / 2), pred a = true := by
            intro a hmem2
            exact hcross a hmem2 _ hmem (by rw [hget] at h3; exact h3)
          have htake_len : (xs.take (xs.length / 2)).countP pred = xs.length / 2 := by
            rw [List.countP_eq_length.mpr htake_all, List.length_take]
            omega
          have hdrop_len : (xs.drop (xs.length / 2)).length ≤ n := by
            rw [List.length_drop]
            omega
          rw [ih (xs.drop (xs.length / 2)) hdrop_len hpdrop]
          conv_rhs => rw [← hsplit]
          rw [List.countP_append, htake_len]
        · rw [if_neg h3]
          have hdrop_zero : (xs.drop (xs.length / 2)).countP pred = 0 := by
            rw [List.countP_eq_zero]
            intro a hmem2
            rw [hdropcons] at hpdrop hmem2
            rcases List.mem_cons.mp hmem2 with rfl | hmem3
            · rw [hget] at h3; exact h3
            · intro hpa
              have := (List.pairwise_cons.mp hpdrop).1 a hmem3 hpa
              rw [hget] at h3
              exact h3 this
          have htake_len2 : (xs.take (xs.length / 2)).length ≤ n := by
            rw [List.length_take]
            omega
          rw [ih (xs.take (xs.length / 2)) htake_len2 hptake]
          conv_rhs => rw [← hsplit]
          rw [List.countP_append, hdrop_zero]
          omega

lemma n_points_before_or_at_eq_countP (points : List ℕ) (p : ℕ)
    (h : points.Sorted (· ≤ ·)) :
    n_points_before_or_at points p = points.countP (fun x => !decide (p < x)) := by
  apply partition_point_eq_countP _ points.length points (Nat.le_refl _)
  refine h.imp ?_
  intro a b hab hb
  simp at hb ⊢
  omega

/-- C4 (counterexample): the set built from the single interval
`[(3, 91))` contains the point 3 (the constructor's test suite asserts
exactly this), yet the number of stored points strictly less than 3 is
zero, which is even — refuting "contains(p) iff the number of stored
points `< p` is odd". -/
theorem contains_lt_parity_cex :
    fromIntervals [(3, 91)] = some ⟨[3, 91]⟩ ∧
    HalfOpenIntervalSet.contains ⟨[3, 91]⟩ 3 = true ∧
    ¬ Odd (List.countP (fun x => decide (x < 3)) [3, 91]) := by
  refine ⟨?_, ?_, by decide⟩ <;>
    simp [fromIntervals, union_add, HalfOpenIntervalSet.contains,
      n_points_before_or_at, n_points_before, partition_point_nil,
      partition_point_one, partition_point_two, splice]

/-- C4 (amended): for every interval set whose point list satisfies the
class's sortedness invariant, `contains(p)` is true iff the number of
stored boundary points less than *or equal to* `p` is odd. -/
theorem contains_le_parity (s : HalfOpenIntervalSet) (p : ℕ)
    (hs : s.points.Sorted (· ≤ ·)) :
    s.contains p = true ↔ Odd (s.points.countP (fun x => decide (x ≤ p))) := by
  have hcong : List.countP (fun x => !decide (p < x)) s.points =
      List.countP (fun x => decide (x ≤ p)) s.points := by
    apply List.countP_congr
    intro x _
    simp
  unfold HalfOpenIntervalSet.contains
  rw [n_points_before_or_at_eq_countP s.points p hs, hcong]
  simp [Nat.odd_iff]

/-- C4 (witness): the amended parity law evaluated on the set `[3, 91)`
at the point 90. -/
theorem contains_le_parity_witness :
    HalfOpenIntervalSet.contains ⟨[3, 91]⟩ 90 = true ↔
      Odd (List.countP (fun x => decide (x ≤ 90)) [3, 91]) :=
  contains_le_parity ⟨[3, 91]⟩ 90 (by decide)

/-! ## Claim C10 — stored terms are key-sorted with one term per key -/

lemma Term.intersection_key (a b r : Term) (hk : a.key = b.key)
    (h : a.intersection b = some r) : r.key = a.key := by
  obtain ⟨ar, ap⟩ := a
  obtain ⟨br, bp⟩ := b
  simp only [Term.key, dep.key] at hk ⊢
  cases ap <;> cases bp <;> simp only [Term.intersection] at h
  all_goals try split at h
  all_goals first
    | (obtain rfl := Option.some.inj h
       simp [Term.key, dep.key, dep.intersection, dep.difference, dep.union, hk])
    | exact absurd h (by simp)

lemma simplifyAux_spec :
    ∀ (ts : List Term) (acc : Term) (out : List Term),
      List.Sorted (· ≤ ·) ((acc :: ts).map Term.key) →
      incompatibility.simplifyAux acc ts = some out →
      List.Sorted (· < ·) (out.map Term.key) ∧
      (∀ k, k ∈ out.map Term.key ↔ k ∈ (acc :: ts).map Term.key) ∧
      (∀ k ∈ out.map Term.key, acc.key ≤ k) := by
  intro ts
  induction ts with
  | nil =>
    intro acc out _ h
    simp only [incompatibility.simplifyAux] at h
    obtain rfl := Option.some.inj h
    refine ⟨by simp, fun k => Iff.rfl, ?_⟩
    intro k hk
    have hke : k = acc.key := by simpa using hk
    omega
  | cons t ts ih =>
    intro acc out hs h
    simp only [incompatibility.simplifyAux] at h
    rw [List.map_cons, List.sorted_cons] at hs
    obtain ⟨haccle, hs1⟩ := hs
    by_cases heq : t.key = acc.key
    · rw [if_pos heq] at h
      cases hi : incompatibility.not_null_intersection acc t with
      | none => rw [hi] at h; exact absurd h (by simp)
      | some acc2 =>
        rw [hi] at h
        have hk2 : acc2.key = acc.key :=
          Term.intersection_key acc t acc2 heq.symm hi
        have hs2 : List.Sorted (· ≤ ·) ((acc2 :: ts).map Term.key) := by
          rw [List.map_cons, List.sorted_cons]
          rw [List.map_cons, List.sorted_cons] at hs1
          refine ⟨?_, hs1.2⟩
          intro b hb
          rw [hk2]
          exact haccle b (by simp [List.mem_cons]; right; simpa using hb)
        obtain ⟨hsort2, hmem2, hbound2⟩ := ih acc2 out hs2 h
        refine ⟨hsort2, ?_, ?_⟩
        · intro k
          rw [hmem2 k]
          simp [hk2, heq]
        · intro k hkmem
          have hb := hbound2 k hkmem
          rw [hk2] at hb
          exact hb
    · rw [if_neg heq] at h
      cases hrest : incompatibility.simplifyAux t ts with
      | none => rw [hrest] at h; exact absurd h (by simp)
      | some rest =>
        rw [hrest] at h
        obtain rfl := Option.some.inj h
        obtain ⟨hsortr, hmemr, hboundr⟩ := ih t rest hs1 hrest
        have hlet : acc.key ≤ t.key := haccle t.key (by simp)
        have hlt : acc.key < t.key :=
          lt_of_le_of_ne hlet fun hkeq => heq hkeq.symm
        refine ⟨?_, ?_, ?_⟩
        · rw [List.map_cons, List.sorted_cons]
          exact ⟨fun b hb => lt_of_lt_of_le hlt (hboundr b hb), hsortr⟩
        · intro k
          simp only [List.map_cons, List.mem_cons, hmemr k]
        · intro k hk
          rw [List.map_cons, List.mem_cons] at hk
          rcases hk with rfl | hk2
          · exact le_refl _
          · exact le_of_lt (lt_of_lt_of_le hlt (hboundr k hk2))

/-- C10: whatever the order and multiplicity of the terms handed to the
`Incompatibility` constructor, the stored terms are strictly sorted by
term key (ascending, hence exactly one term per key), and the stored
keys are exactly the distinct keys of the input terms. -/
theorem incompatibility_new_terms (ts : List Term) (cause : Cause) (ic : Incompatibility)
    (h : Incompatibility.new ts cause = some ic) :
    List.Sorted (· < ·) (ic.terms.map Term.key) ∧
    ∀ k, (k ∈ ic.terms.map Term.key ↔ k ∈ ts.map Term.key) := by
  unfold Incompatibility.new at h
  rw [Option.map_eq_some'] at h
  obtain ⟨out, hout, hic⟩ := h
  subst hic
  have hterms : (Cause.store cause out).terms = out := by
    cases cause <;> rfl
  rw [hterms]
  simp only [incompatibility.simplify] at hout
  cases hsrt : incompatibility.sortTerms ts with
  | nil =>
    rw [hsrt] at hout
    obtain rfl := Option.some.inj hout
    have hts : ts = [] := by
      have hperm := List.perm_insertionSort keyLe ts
      rw [incompatibility.sortTerms] at hsrt
      rw [hsrt] at hperm
      exact List.nil_perm.mp hperm
    subst hts
    exact ⟨by simp, fun k => by simp⟩
  | cons t rest =>
    rw [hsrt] at hout
    have hsorted : List.Sorted (· ≤ ·) ((t :: rest).map Term.key) := by
      have h1 : List.Sorted keyLe (incompatibility.sortTerms ts) :=
        List.sorted_insertionSort keyLe ts
      rw [hsrt] at h1
      exact List.Pairwise.map Term.key (fun a b hab => hab) h1
    obtain ⟨hsort, hmem, _⟩ := simplifyAux_spec rest t out hsorted hout
    refine ⟨hsort, ?_⟩
    intro k
    rw [hmem k]
    have hmemsort : ∀ x : Term, x ∈ t :: rest ↔ x ∈ ts := by
      intro x
      rw [← hsrt, incompatibility.sortTerms]
      exact List.mem_insertionSort keyLe
    constructor
    · intro hk
      obtain ⟨a, ha, hak⟩ := List.mem_map.mp hk
      exact List.mem_map.mpr ⟨a, (hmemsort a).mp ha, hak⟩
    · intro hk
      obtain ⟨a, ha, hak⟩ := List.mem_map.mp hk
      exact List.mem_map.mpr ⟨a, (hmemsort a).mpr ha, hak⟩

/-- Inputs for the C10 witness: three positive terms with keys 2, 1, 2
(out of order, key 2 twice) and the incompatibility the constructor
builds from them. -/
def new_terms_ts_w : List Term :=
  [⟨⟨2, {1}⟩, true⟩, ⟨⟨1, {1}⟩, true⟩, ⟨⟨2, {1, 2}⟩, true⟩]

def new_terms_ic_w : Incompatibility :=
  .base [⟨⟨1, {1}⟩, true⟩, ⟨⟨2, {1}⟩, true⟩] .RootCause

/-- C10 (witness): on the concrete input above the constructor stores
key-sorted terms, and key 2 (duplicated in the input) is present. -/
theorem incompatibility_new_terms_witness :
    List.Sorted (· < ·) (new_terms_ic_w.terms.map Term.key) ∧
    (2 ∈ new_terms_ic_w.terms.map Term.key ↔ 2 ∈ new_terms_ts_w.map Term.key) := by
  have h := incompatibility_new_terms new_terms_ts_w .RootCause new_terms_ic_w (by decide)
  exact ⟨h.1, h.2 2⟩
